import Mathlib

/-!
Verification development for the temperature-estimation module of the
dwave-system repository (src/dwave/system/temperatures.py).

Modelling conventions (shallow embedding):
* Python/NumPy floating-point values are idealized as exact numbers.
  Matrix data (effective fields) is modelled over the rationals so the
  branch conditions of the source that compare matrix statistics are
  decidable; scalar temperatures, brackets and the pseudo-likelihood
  objective (which involves the exponential) live in the reals.
* Python exceptions are modelled with an `Except PyError` result.
  Python scalar division `a / b` raises ZeroDivisionError for `b = 0`;
  this is modelled by `pydivR`.
* The NumPy global random generator (used by `np.random.choice` at
  temperatures.py line 354) is modelled as an abstract deterministic
  stream of naturals with a cursor (`Rng`).  A draw of `size` values
  below `n` reads `size` consecutive stream values modulo `n` and
  advances the cursor; this captures that the draws are a deterministic
  function of the global generator state (and of nothing else).
  `np.random.RandomState(seed)` (line 351) constructs a fresh seeded
  generator; the routine never reads from it, which this embedding
  reproduces faithfully.
* `warnings.warn` calls are modelled by accumulating `Warn` tags in the
  returned record; overflow suppression inside the objective needs no
  model because real arithmetic does not overflow.
-/

/-- Python exception outcomes relevant to this module.  `nameError` arises
when an undefined identifier (such as `ValueException` in the source) is
evaluated. -/
inductive PyError where
  | valueError (msg : String) : PyError
  | nameError (msg : String) : PyError
  | zeroDivisionError : PyError
deriving DecidableEq, Repr

/-- Python scalar division: raises ZeroDivisionError when the denominator
is zero, otherwise returns the exact quotient. -/
noncomputable def pydivR (a b : ℝ) : Except PyError ℝ :=
  if b = 0 then .error .zeroDivisionError else .ok (a / b)

/-- Abstract model of the NumPy global pseudo-random generator: a fixed
stream of naturals together with a cursor into it. -/
structure Rng where
  stream : Nat → Nat
  pos : Nat

/-- Model of `np.random.choice(n, size, replace=True)` on the global
generator: `size` independent draws, each reduced modulo `n` so that it
falls in `range(n)`; the cursor advances by `size`.  Uniformity of the
real generator is a NumPy contract abstracted away here; what the model
keeps is determinism in the generator state and independence between
draws. -/
def np_random_choice (rng : Rng) (n : Nat) (size : Nat) : List Nat × Rng :=
  ((List.range size).map (fun k => rng.stream (rng.pos + k) % n),
   ⟨rng.stream, rng.pos + size⟩)

/-- Model of `np.random.RandomState(seed)` (temperatures.py line 351): a
fresh generator whose stream is some function of the seed.  The routine
under study never draws from it, so the choice of stream is irrelevant;
any deterministic function of the seed is a faithful model. -/
def np_RandomState (seed : Option Nat) : Rng :=
  ⟨fun k => seed.getD 0 + k, 0⟩

/-- NumPy `np.max` over a one-dimensional array, modelled on lists.  NumPy
raises on an empty array; the `0` returned here for `[]` is junk that no
reachable call site relies on (callers pass nonempty data). -/
def npMax (l : List ℚ) : ℚ :=
  match l with
  | [] => 0
  | x :: xs => xs.foldl max x

/-- The source's `np.max(site_energy[0], axis=1)` followed by `np.max`:
the largest entry of the whole effective-field matrix
(temperatures.py lines 265-266). -/
def npMaxMatrix (F : List (List ℚ)) : ℚ :=
  npMax (F.map npMax)

/-- Derivative of the mean log pseudo-likelihood
(`d_mean_log_pseudo_likelihood`, temperatures.py lines 273-284):
`np.sum(site_energy[0] / (1 + np.exp(site_energy[0] * x)))`.
Overflow of the float exponential is suppressed in the source and
saturates harmlessly; real arithmetic needs no such handling. -/
noncomputable def d_mean_log_pseudo_likelihood (F : List (List ℚ)) (x : ℝ) : ℝ :=
  (F.map (fun row => (row.map (fun f => (f : ℝ) / (1 + Real.exp ((f : ℝ) * x)))).sum)).sum

/-- Second derivative used by the non-bisect branch
(`dd_mean_log_pseudo_likelihood`, temperatures.py lines 334-342):
`np.sum(-site_energy**2 / (expFactor + 2 + 1/expFactor))`. -/
noncomputable def dd_mean_log_pseudo_likelihood (F : List (List ℚ)) (x : ℝ) : ℝ :=
  (F.map (fun row =>
    (row.map (fun f =>
      -((f : ℝ) * (f : ℝ)) / (Real.exp ((f : ℝ) * x) + 2 + 1 / Real.exp ((f : ℝ) * x)))).sum)).sum

/-- Model of `scipy.optimize.root_scalar(..., method='bisect', bracket=[a,b])`:
plain bisection driven by a fuel counter (SciPy iterates to tolerance with
a maximum iteration count; the returned point always lies inside the
initial bracket, which is the only property the development uses). -/
noncomputable def scipy_bisect (f : ℝ → ℝ) (a b : ℝ) : Nat → ℝ
  | 0 => (a + b) / 2
  | n + 1 =>
    let m := (a + b) / 2
    if f a * f m ≤ 0 then scipy_bisect f a m n else scipy_bisect f m b n

/-- Model of `scipy.optimize.root_scalar(f, x0, fprime)`: Newton iteration
with a fuel counter. -/
noncomputable def scipy_newton (f f' : ℝ → ℝ) (x0 : ℝ) : Nat → ℝ
  | 0 => x0
  | n + 1 => scipy_newton f f' (x0 - f x0 / f' x0) n

/-- Tags for the two `warnings.warn` diagnostics of
`maximum_pseudolikelihood_temperature` (temperatures.py lines 305 and 315). -/
inductive Warn where
  | belowTBracket : Warn
  | aboveTBracket : Warn
deriving DecidableEq, Repr

/-- Result of the point-estimate part of
`maximum_pseudolikelihood_temperature` (no bootstrapping): the estimate,
the diagnostics emitted, whether `optimize.root_scalar` was invoked, and
the root found by it (mirroring the source's `root_results`). -/
structure PointOut where
  T_estimate : ℝ
  warnings : List Warn
  searched : Bool
  root_results : Option ℝ
deriving Inhabited

/-- Planck constant in J/Hz as written in the source (6.62607e-34). -/
def planck_h : ℚ := 6.62607e-34

/-- Boltzmann constant in J/K as written in the source (1.3806503e-23). -/
def boltzmann_kB : ℚ := 1.3806503e-23

/-- Superconducting flux quantum in Weber as written in the source
(2.0678e-15). -/
def Phi0 : ℚ := 2.0678e-15

/-- Embedding of `freezeout_effective_temperature`
(temperatures.py lines 656-678).  The two unit-validation branches of the
source execute `raise ValueException(...)`; `ValueException` is an
undefined name in Python, so evaluating it raises `NameError`, not
`ValueError` - the embedding records exactly that. -/
def freezeout_effective_temperature (freezeout_B temperature : ℚ)
    (units_B units_T : String) : Except PyError ℚ :=
  let fB : Except PyError ℚ :=
    if units_B = "GHz" then .ok (freezeout_B * planck_h * 1e9)
    else if units_B = "J" then .ok freezeout_B
    else .error (.nameError "name ValueException is not defined")
  match fB with
  | .error e => .error e
  | .ok fB' =>
    let tK : Except PyError ℚ :=
      if units_T = "mK" then .ok (temperature * 1e-3)
      else if units_T = "K" then .ok temperature
      else .error (.nameError "name ValueException is not defined")
    match tK with
    | .error e => .error e
    | .ok t' =>
      if fB' = 0 then .error .zeroDivisionError
      else .ok (2 * t' * boltzmann_kB / fB')

/-- Embedding of `Ip_in_units_of_B` (temperatures.py lines 365-449) over
the reals (the `Ip is None` branch takes a square root). -/
noncomputable def Ip_in_units_of_B (Ip : Option ℝ) (B MAFM : ℝ)
    (units_Ip units_B units_MAFM : String) : Except PyError ℝ :=
  let Bm : Except PyError ℝ :=
    if units_B = "GHz" then .ok (1e9 * (planck_h : ℝ))
    else if units_B = "J" then .ok 1
    else .error (.valueError "Schedule B must be in units GHz or J")
  match Bm with
  | .error e => .error e
  | .ok B_multiplier =>
    match Ip with
    | none =>
      let BJ := B * B_multiplier
      if units_MAFM = "pH" then
        .ok (Real.sqrt (BJ / (2 * (MAFM * 1e-12))) * (Phi0 : ℝ) / B_multiplier)
      else if units_MAFM = "H" then
        .ok (Real.sqrt (BJ / (2 * MAFM)) * (Phi0 : ℝ) / B_multiplier)
      else .error (.valueError "MAFM must be in units pH or H")
    | some ip =>
      if units_Ip = "uA" then .ok (ip * 1e-6 * (Phi0 : ℝ) / B_multiplier)
      else if units_Ip = "A" then .ok (ip * (Phi0 : ℝ) / B_multiplier)
      else .error (.valueError "Ip must be in units uA or A")

/-- Embedding of `h_to_fluxbias` (temperatures.py lines 452-511):
`-B/2/Ip * h` after converting `Ip` into units of `B`. -/
noncomputable def h_to_fluxbias (h : ℝ) (Ip : Option ℝ) (B MAFM : ℝ)
    (units_Ip units_B units_MAFM : String) : Except PyError ℝ :=
  match Ip_in_units_of_B Ip B MAFM units_Ip units_B units_MAFM with
  | .error e => .error e
  | .ok ipB =>
    match pydivR (-B / 2) ipB with
    | .error e => .error e
    | .ok t => .ok (t * h)

/-- Embedding of `fluxbias_to_h` (temperatures.py lines 513-573):
`-2*Ip/B * fluxbias` after converting `Ip` into units of `B`. -/
noncomputable def fluxbias_to_h (fluxbias : ℝ) (Ip : Option ℝ) (B MAFM : ℝ)
    (units_Ip units_B units_MAFM : String) : Except PyError ℝ :=
  match Ip_in_units_of_B Ip B MAFM units_Ip units_B units_MAFM with
  | .error e => .error e
  | .ok ipB =>
    match pydivR (-2 * ipB) B with
    | .error e => .error e
    | .ok t => .ok (t * fluxbias)

/-- Pointwise in-place addition `v[i] += q`, the scalar step of
`np.add.at` (temperatures.py lines 135-136).  An out-of-range index
leaves the list unchanged; NumPy would raise, but every call site below
is guarded by index bounds. -/
def addAt : List ℚ → Nat → ℚ → List ℚ
  | [], _, _ => []
  | x :: xs, 0, q => (x + q) :: xs
  | x :: xs, n + 1, q => x :: addAt xs n q

/-- Body of the per-sample loop of `effective_field`
(temperatures.py lines 133-140) for one sample `s`: start from the tiled
linear vector `h`, run the two `np.add.at` passes - one accumulating
`qdata * s[icol]` at `irow`, one accumulating `qdata * s[irow]` at
`icol` - then, with `current_state_energy`, multiply entrywise by
`2 * s`. -/
def effective_field_row (h : List ℚ) (edges : List (Nat × Nat × ℚ))
    (s : List ℚ) (current_state_energy : Bool) : List ℚ :=
  let ef1 := edges.foldl (fun v e => addAt v e.1 (e.2.2 * s.getD e.2.1 0)) h
  let ef2 := edges.foldl (fun v e => addAt v e.2.1 (e.2.2 * s.getD e.1 0)) ef1
  if current_state_energy then List.zipWith (fun si fi => 2 * si * fi) s ef2 else ef2

/-- Embedding of `effective_field` (temperatures.py lines 48-142) for a
spin (Ising) model already in `{-1,+1}` convention.  The model is given
by its dense linear vector `h` and its one-entry-per-edge quadratic terms
`edges = [(irow, icol, qdata), ...]`, exactly the `to_numpy_vectors`
output the source consumes.  The BINARY-to-SPIN conversion and the label
bookkeeping of the source do not change the numerics and are omitted. -/
def effective_field (h : List ℚ) (edges : List (Nat × Nat × ℚ))
    (samples : List (List ℚ)) (current_state_energy : Bool) : List (List ℚ) :=
  samples.map (fun s => effective_field_row h edges s current_state_energy)

/-- Symmetric coupling matrix implied by the one-entry-per-edge storage:
`Jsym edges i j` sums the weight of every edge joining `i` and `j` in
either orientation.  This is the `J` of the docstring formula
`f_i(s) = 2 s_i (h_i + sum_j J_ij s_j)`. -/
def Jsym (edges : List (Nat × Nat × ℚ)) (i j : Nat) : ℚ :=
  (edges.map (fun e =>
    (if e.1 = i ∧ e.2.1 = j then e.2.2 else 0) +
    (if e.1 = j ∧ e.2.1 = i then e.2.2 else 0))).sum

/-- Result record of `maximum_pseudolikelihood_temperature`: the returned
pair `(T_estimate, T_bootstrap_estimates)` plus the observable side
effects - diagnostics emitted, whether a root search ran at top level,
and the state of the global random generator after the call. -/
structure MPLReturn where
  T_estimate : ℝ
  T_bootstrap_estimates : List ℝ
  warnings : List Warn
  searched : Bool
  rng : Rng

/-- Default temperature bracket of the source, `T_bracket=(1e-3, 1000)`. -/
noncomputable def defaultTBracket : ℝ × ℝ := (1e-3, 1000)

/-- Selection of the root-search starting point `x0`
(temperatures.py lines 287-295): `-1/max_excitation` without a guess,
otherwise `-1/T_guess` clamped into the bracket.  The source runs this
before any bracket validation, so a zero divisor here raises first. -/
noncomputable def x0_selection (T_guess : Option ℝ) (max_excitation_all : ℚ)
    (T_bracket : ℝ × ℝ) : Except PyError ℝ :=
  match T_guess with
  | none => pydivR (-1) (max_excitation_all : ℝ)
  | some g =>
    if g < T_bracket.1 then pydivR (-1) T_bracket.1
    else if T_bracket.2 < g then pydivR (-1) T_bracket.2
    else pydivR (-1) g

/-- Point-estimate part of `maximum_pseudolikelihood_temperature`
(temperatures.py lines 254-346), for a given effective-field matrix in
excitation form.  Follows the source statement by statement:
the degenerate early return when the largest excitation is nonpositive
(lines 265-270); the `x0` selection (lines 287-295); the `'bisect'`
branch with its bracket validation, bracket transform `[-1/lo, -1/hi]`,
the two boundary-clamp warnings, and the bisection call
(lines 297-330); and the Newton branch for any other method
(lines 331-346). -/
noncomputable def mpl_point_estimate (F : List (List ℚ)) (T_guess : Option ℝ)
    (optimize_method : Option String) (T_bracket : ℝ × ℝ) :
    Except PyError PointOut :=
  if npMaxMatrix F ≤ 0 then
    .ok ⟨0, [], false, none⟩
  else
    match x0_selection T_guess (npMaxMatrix F) T_bracket with
    | .error e => .error e
    | .ok x0 =>
      if optimize_method = some "bisect" then
        if ¬ (0 ≤ T_bracket.1 ∧ T_bracket.1 < T_bracket.2) then
          .error (.valueError "Bad T_bracket, must be positive ordered scalars.")
        else
          match pydivR (-1) T_bracket.1, pydivR (-1) T_bracket.2 with
          | .error e, _ => .error e
          | .ok _, .error e => .error e
          | .ok xlo, .ok xhi =>
            if d_mean_log_pseudo_likelihood F xlo < 0 then
              .ok ⟨T_bracket.1, [.belowTBracket], false, none⟩
            else if 0 < d_mean_log_pseudo_likelihood F xhi then
              .ok ⟨T_bracket.2, [.aboveTBracket], false, none⟩
            else
              let _x0_adjusted := if x0 < xlo ∨ xhi < x0 then (xlo + xhi) / 2 else x0
              let root := scipy_bisect (d_mean_log_pseudo_likelihood F) xlo xhi 100
              match pydivR (-1) root with
              | .error e => .error e
              | .ok T => .ok ⟨T, [], true, some root⟩
      else
        let root := scipy_newton (d_mean_log_pseudo_likelihood F)
          (dd_mean_log_pseudo_likelihood F) x0 50
        match pydivR (-1) root with
        | .error e => .error e
        | .ok T => .ok ⟨T, [], true, some root⟩

/-- The bootstrap loop of `maximum_pseudolikelihood_temperature`
(temperatures.py lines 353-361), with `k` iterations remaining.  Each
iteration draws `num_bootstrap_samples` row indices from the GLOBAL
generator (`np.random.choice`, line 354 - not from the seeded `prng`),
slices the matrix to those rows keeping every column, and re-invokes the
point estimate with `num_bootstrap_samples=0`, `T_guess=T_estimate` and
all remaining arguments at their defaults. -/
noncomputable def bootLoop (F : List (List ℚ)) (num_samples : Nat)
    (num_bootstrap_samples : Nat) (T_estimate : ℝ) :
    Nat → List ℝ → Rng → Except PyError (List ℝ × Rng)
  | 0, acc, rng => .ok (acc, rng)
  | k + 1, acc, rng =>
    let (indices, rng') := np_random_choice rng num_samples num_bootstrap_samples
    let Fs := indices.map (fun i => F.getD i [])
    match mpl_point_estimate Fs (some T_estimate) (some "bisect") defaultTBracket with
    | .error e => .error e
    | .ok pt => bootLoop F num_samples num_bootstrap_samples T_estimate k
        (acc ++ [pt.T_estimate]) rng'

/-- Embedding of `maximum_pseudolikelihood_temperature`
(temperatures.py lines 144-363) for a supplied effective-field matrix
(`site_energy`); the path that derives `site_energy` from a model and a
sample set is `effective_field` composed in front and is not needed by
any claim.  The `T_bootstrap_estimates` array starts as `np.zeros(N)`
(line 255) and is returned untouched unless the bootstrap loop runs.
The seeded `prng` of line 351 is constructed and never used; the row
draws of the loop consume the global generator `rng`.  The source's
self-call with `num_bootstrap_samples=0` is `mpl_point_estimate`
(see `maximum_pseudolikelihood_temperature_zero_eq_point` below, which
proves the two agree). -/
noncomputable def maximum_pseudolikelihood_temperature
    (F : List (List ℚ)) (num_bootstrap_samples : Nat) (seed : Option Nat)
    (T_guess : Option ℝ) (optimize_method : Option String)
    (T_bracket : ℝ × ℝ) (rng : Rng) : Except PyError MPLReturn :=
  if npMaxMatrix F ≤ 0 then
    .ok ⟨0, List.replicate num_bootstrap_samples 0, [], false, rng⟩
  else
    match mpl_point_estimate F T_guess optimize_method T_bracket with
    | .error e => .error e
    | .ok pt =>
      if 0 < num_bootstrap_samples then
        let _prng := np_RandomState seed
        match bootLoop F F.length num_bootstrap_samples pt.T_estimate
            num_bootstrap_samples [] rng with
        | .error e => .error e
        | .ok (boots, rng') =>
          .ok ⟨pt.T_estimate, boots, pt.warnings, pt.searched, rng'⟩
      else
        .ok ⟨pt.T_estimate, List.replicate num_bootstrap_samples 0,
          pt.warnings, pt.searched, rng⟩

/-- Row indices drawn by one `np.random.choice(n, size)` call starting at
stream position `p0`. -/
def drawsList (st : Nat → Nat) (p0 n size : Nat) : List Nat :=
  (List.range size).map (fun j => st (p0 + j) % n)

/-- Row slice `site_energy[0][indices, :]` (all columns kept). -/
def sliceRows (F : List (List ℚ)) (ids : List Nat) : List (List ℚ) :=
  ids.map (fun i => F.getD i [])

/-- Temperature produced by the bootstrap's recursive point estimate
(`T_guess` set, all other search arguments at their defaults).  The
`.error` fallback value is unreachable: with the default bracket the
point estimate always succeeds (`mpl_point_estimate_default_ok`). -/
noncomputable def peT (F : List (List ℚ)) (T : ℝ) : ℝ :=
  match mpl_point_estimate F (some T) (some "bisect") defaultTBracket with
  | .ok pt => pt.T_estimate
  | .error _ => 0

/-- The identity stream, a convenient concrete state for the global
generator in the concrete evaluations below. -/
def idStream : Nat → Nat := fun k => k

/-- A concrete global-generator state: identity stream at position 0. -/
def rng0 : Rng := ⟨idStream, 0⟩

/-- Linear terms of the 5-variable ferromagnetic chain example of the
source docstring (all zero). -/
def chain_h : List ℚ := [0, 0, 0, 0, 0]

/-- Couplers of the 5-variable ferromagnetic chain: -0.5 between
consecutive pairs, one entry per unordered pair. -/
def chain_edges : List (Nat × Nat × ℚ) :=
  [(0, 1, -1/2), (1, 2, -1/2), (2, 3, -1/2), (3, 4, -1/2)]

/-- Unfolding lemma for Python division with a nonzero denominator. -/
theorem pydivR_ok (a : ℝ) {b : ℝ} (hb : b ≠ 0) : pydivR a b = .ok (a / b) := by
  unfold pydivR
  rw [if_neg hb]

/-- A degenerate matrix (largest excitation nonpositive) short-circuits
the whole routine: estimate 0, an all-zero bootstrap array of the
requested length, no diagnostics, no root search, and an untouched
global generator. -/
theorem mpl_degenerate (F : List (List ℚ)) (N : Nat) (seed : Option Nat)
    (g : Option ℝ) (m : Option String) (br : ℝ × ℝ) (rng : Rng)
    (h : npMaxMatrix F ≤ 0) :
    maximum_pseudolikelihood_temperature F N seed g m br rng =
      .ok ⟨0, List.replicate N 0, [], false, rng⟩ := by
  unfold maximum_pseudolikelihood_temperature
  rw [if_pos h]

/-- The bisection model never leaves its initial bracket. -/
theorem scipy_bisect_mem (f : ℝ → ℝ) :
    ∀ (n : Nat) (a b : ℝ), a ≤ b →
      a ≤ scipy_bisect f a b n ∧ scipy_bisect f a b n ≤ b := by
  intro n
  induction n with
  | zero =>
    intro a b hab
    constructor <;> simp only [scipy_bisect] <;> linarith
  | succ n ih =>
    intro a b hab
    have hm1 : a ≤ (a + b) / 2 := by linarith
    have hm2 : (a + b) / 2 ≤ b := by linarith
    simp only [scipy_bisect]
    by_cases hc : f a * f ((a + b) / 2) ≤ 0
    · rw [if_pos hc]
      obtain ⟨h1, h2⟩ := ih a ((a + b) / 2) hm1
      exact ⟨h1, h2.trans hm2⟩
    · rw [if_neg hc]
      obtain ⟨h1, h2⟩ := ih ((a + b) / 2) b hm2
      exact ⟨hm1.trans h1, h2⟩

/-- The `x0` selection cannot raise when the bracket ends and the largest
excitation are positive. -/
theorem x0_selection_ok (g : Option ℝ) (m : ℚ) (lo hi : ℝ)
    (hm : 0 < m) (hlo : 0 < lo) (hhi : 0 < hi) :
    ∃ x0, x0_selection g m (lo, hi) = .ok x0 := by
  cases g with
  | none =>
    refine ⟨-1 / (m : ℝ), ?_⟩
    unfold x0_selection
    exact pydivR_ok _ (by exact_mod_cast hm.ne')
  | some gv =>
    unfold x0_selection
    dsimp only
    by_cases h1 : gv < lo
    · rw [if_pos h1]
      exact ⟨_, pydivR_ok _ hlo.ne'⟩
    · rw [if_neg h1]
      by_cases h2 : hi < gv
      · rw [if_pos h2]
        exact ⟨_, pydivR_ok _ hhi.ne'⟩
      · rw [if_neg h2]
        have hgv : 0 < gv := lt_of_lt_of_le hlo (not_lt.mp h1)
        exact ⟨_, pydivR_ok _ hgv.ne'⟩

/-- With a well-formed strictly positive bracket the bisect branch of the
point estimate never raises: every path ends in a returned estimate. -/
theorem mpl_point_estimate_bisect_ok (F : List (List ℚ)) (g : Option ℝ)
    (lo hi : ℝ) (hlo : 0 < lo) (hlohi : lo < hi) :
    ∃ pt, mpl_point_estimate F g (some "bisect") (lo, hi) = .ok pt := by
  have hhi : 0 < hi := hlo.trans hlohi
  by_cases hmax : npMaxMatrix F ≤ 0
  · exact ⟨_, by unfold mpl_point_estimate; rw [if_pos hmax]⟩
  · have hmaxQ : 0 < npMaxMatrix F := not_le.mp hmax
    obtain ⟨x0, hx0⟩ := x0_selection_ok g (npMaxMatrix F) lo hi hmaxQ hlo hhi
    unfold mpl_point_estimate
    rw [if_neg hmax, hx0]
    dsimp only
    rw [if_pos rfl]
    rw [if_neg (not_not_intro ⟨hlo.le, hlohi⟩)]
    rw [pydivR_ok _ hlo.ne', pydivR_ok _ hhi.ne']
    dsimp only
    by_cases hd1 : d_mean_log_pseudo_likelihood F (-1 / lo) < 0
    · rw [if_pos hd1]
      exact ⟨_, rfl⟩
    · rw [if_neg hd1]
      by_cases hd2 : 0 < d_mean_log_pseudo_likelihood F (-1 / hi)
      · rw [if_pos hd2]
        exact ⟨_, rfl⟩
      · rw [if_neg hd2]
        have e1 : (-1 : ℝ) / lo = -(1 / lo) := neg_div _ _
        have e2 : (-1 : ℝ) / hi = -(1 / hi) := neg_div _ _
        have hxlohi : (-1 : ℝ) / lo ≤ -1 / hi := by
          rw [e1, e2]
          exact neg_le_neg (one_div_le_one_div_of_le hlo hlohi.le)
        obtain ⟨hr1, hr2⟩ :=
          scipy_bisect_mem (d_mean_log_pseudo_likelihood F) 100 _ _ hxlohi
        have hneg : (-1 : ℝ) / hi < 0 := by
          rw [e2]
          exact neg_neg_of_pos (by positivity)
        have hroot_ne :
            scipy_bisect (d_mean_log_pseudo_likelihood F) (-1 / lo) (-1 / hi) 100 ≠ 0 :=
          ne_of_lt (lt_of_le_of_lt hr2 hneg)
        rw [pydivR_ok _ hroot_ne]
        exact ⟨_, rfl⟩

/-- The recursive bootstrap call (default bracket `(1e-3, 1000)`, default
`'bisect'` method) always returns an estimate, whatever the sliced matrix
and propagated guess are. -/
theorem mpl_point_estimate_default_ok (F : List (List ℚ)) (g : Option ℝ) :
    ∃ pt, mpl_point_estimate F g (some "bisect") defaultTBracket = .ok pt := by
  have h := mpl_point_estimate_bisect_ok F g 1e-3 1000 (by norm_num) (by norm_num)
  simpa [defaultTBracket] using h

/-- Closed form of the bootstrap loop: it never raises, appends one
recursive point estimate per iteration (each consuming exactly
`num_bootstrap_samples` draws from the global generator), and advances
the generator cursor by `k * num_bootstrap_samples`. -/
theorem bootLoop_eq (F : List (List ℚ)) (ns N : Nat) (T : ℝ) :
    ∀ (k : Nat) (acc : List ℝ) (st : Nat → Nat) (p : Nat),
    bootLoop F ns N T k acc ⟨st, p⟩ =
      .ok (acc ++ (List.range k).map
          (fun i => peT (sliceRows F (drawsList st (p + i * N) ns N)) T),
        ⟨st, p + k * N⟩) := by
  intro k
  induction k with
  | zero =>
    intro acc st p
    simp [bootLoop]
  | succ k ih =>
    intro acc st p
    obtain ⟨pt, hpt⟩ := mpl_point_estimate_default_ok
      (sliceRows F (drawsList st p ns N)) (some T)
    have hpe : peT (sliceRows F (drawsList st p ns N)) T = pt.T_estimate := by
      unfold peT
      rw [hpt]
    simp only [sliceRows, drawsList] at hpt hpe
    simp only [bootLoop, np_random_choice]
    rw [hpt]
    dsimp only
    rw [ih]
    rw [List.range_succ_eq_map]
    have harith : ∀ i : Nat, p + N + i * N = p + Nat.succ i * N := by
      intro i
      simp [Nat.succ_mul]
      ring
    simp only [List.map_cons, List.map_map, List.cons_append, List.append_assoc,
      List.singleton_append, Nat.zero_mul, Nat.add_zero, Function.comp]
    rw [← hpe]
    simp only [sliceRows, drawsList, harith]
    constructor

/-- The embedding's bootstrap loop body agrees with the source's
recursive self-call: invoking the full routine with
`num_bootstrap_samples = 0` is exactly the point estimate (the returned
bootstrap array is empty and the global generator is untouched). -/
theorem maximum_pseudolikelihood_temperature_zero_eq_point
    (F : List (List ℚ)) (seed : Option Nat) (g : Option ℝ)
    (m : Option String) (br : ℝ × ℝ) (rng : Rng) :
    maximum_pseudolikelihood_temperature F 0 seed g m br rng =
      match mpl_point_estimate F g m br with
      | .error e => .error e
      | .ok pt => .ok ⟨pt.T_estimate, [], pt.warnings, pt.searched, rng⟩ := by
  by_cases h : npMaxMatrix F ≤ 0
  · have hp : mpl_point_estimate F g m br = .ok ⟨0, [], false, none⟩ := by
      unfold mpl_point_estimate
      rw [if_pos h]
    rw [mpl_degenerate F 0 seed g m br rng h, hp]
    rfl
  · unfold maximum_pseudolikelihood_temperature
    rw [if_neg h]
    cases hp : mpl_point_estimate F g m br with
    | error e => rfl
    | ok pt => simp

/-- Characterization of a bootstrapped call on a non-degenerate matrix:
the result carries the point estimate and its diagnostics, and the
bootstrap array is one recursive default-parameter point estimate per
replicate, the replicate `i` drawing its `N` row indices from global
stream positions `p + i*N, ..., p + i*N + N - 1`. -/
theorem mpl_boot_characterization (F : List (List ℚ)) (N : Nat)
    (seed : Option Nat) (g : Option ℝ) (m : Option String) (br : ℝ × ℝ)
    (st : Nat → Nat) (p : Nat) (pt : PointOut)
    (hmax : ¬ npMaxMatrix F ≤ 0)
    (hpt : mpl_point_estimate F g m br = .ok pt) (hN : 0 < N) :
    maximum_pseudolikelihood_temperature F N seed g m br ⟨st, p⟩ =
      .ok ⟨pt.T_estimate,
        (List.range N).map
          (fun i => peT (sliceRows F (drawsList st (p + i * N) F.length N)) pt.T_estimate),
        pt.warnings, pt.searched, ⟨st, p + N * N⟩⟩ := by
  unfold maximum_pseudolikelihood_temperature
  rw [if_neg hmax, hpt]
  dsimp only
  rw [if_pos hN]
  rw [bootLoop_eq]
  simp

/-- Boundary clamp at the lower bracket end (temperatures.py lines
304-313): with a strictly positive well-ordered bracket and a positive
excitation somewhere, a negative objective at `x = -1/lo` makes the point
estimate warn and return `lo` without searching. -/
theorem mpl_point_estimate_clamp_lo (F : List (List ℚ)) (g : Option ℝ)
    (lo hi : ℝ) (hlo : 0 < lo) (hlohi : lo < hi)
    (hmax : 0 < npMaxMatrix F)
    (hd : d_mean_log_pseudo_likelihood F (-1 / lo) < 0) :
    mpl_point_estimate F g (some "bisect") (lo, hi) =
      .ok ⟨lo, [.belowTBracket], false, none⟩ := by
  have hhi : 0 < hi := hlo.trans hlohi
  obtain ⟨x0, hx0⟩ := x0_selection_ok g (npMaxMatrix F) lo hi hmax hlo hhi
  unfold mpl_point_estimate
  rw [if_neg (not_le.mpr hmax), hx0]
  dsimp only
  rw [if_pos rfl]
  rw [if_neg (not_not_intro ⟨hlo.le, hlohi⟩)]
  rw [pydivR_ok _ hlo.ne', pydivR_ok _ hhi.ne']
  dsimp only
  rw [if_pos hd]

/-- Boundary clamp at the upper bracket end (temperatures.py lines
314-323): when the objective is nonnegative at `x = -1/lo` but positive
at `x = -1/hi`, the point estimate warns and returns `hi` without
searching. -/
theorem mpl_point_estimate_clamp_hi (F : List (List ℚ)) (g : Option ℝ)
    (lo hi : ℝ) (hlo : 0 < lo) (hlohi : lo < hi)
    (hmax : 0 < npMaxMatrix F)
    (hd1 : ¬ d_mean_log_pseudo_likelihood F (-1 / lo) < 0)
    (hd2 : 0 < d_mean_log_pseudo_likelihood F (-1 / hi)) :
    mpl_point_estimate F g (some "bisect") (lo, hi) =
      .ok ⟨hi, [.aboveTBracket], false, none⟩ := by
  have hhi : 0 < hi := hlo.trans hlohi
  obtain ⟨x0, hx0⟩ := x0_selection_ok g (npMaxMatrix F) lo hi hmax hlo hhi
  unfold mpl_point_estimate
  rw [if_neg (not_le.mpr hmax), hx0]
  dsimp only
  rw [if_pos rfl]
  rw [if_neg (not_not_intro ⟨hlo.le, hlohi⟩)]
  rw [pydivR_ok _ hlo.ne', pydivR_ok _ hhi.ne']
  dsimp only
  rw [if_neg hd1, if_pos hd2]

/-- The objective is strictly positive everywhere for the one-sample,
one-variable matrix `[[1]]`. -/
theorem dmlpl_single_one_pos (x : ℝ) :
    0 < d_mean_log_pseudo_likelihood [[1]] x := by
  unfold d_mean_log_pseudo_likelihood
  simp
  positivity

/-- The objective is strictly positive on negative `x` for the two-sample,
one-variable matrix `[[-1], [1]]`. -/
theorem dmlpl_pm_pos (x : ℝ) (hx : x < 0) :
    0 < d_mean_log_pseudo_likelihood [[-1], [1]] x := by
  unfold d_mean_log_pseudo_likelihood
  simp
  have h1 : Real.exp x < Real.exp (-x) := Real.exp_lt_exp.mpr (by linarith)
  have h2 : (0 : ℝ) < 1 + Real.exp x := by positivity
  have h4 : (1 + Real.exp (-x))⁻¹ < (1 + Real.exp x)⁻¹ := by
    apply inv_strictAnti₀ h2
    linarith
  have h5 : (-1 : ℝ) / (1 + Real.exp (-x)) = -((1 + Real.exp (-x))⁻¹) := by
    field_simp
  rw [h5]
  linarith

/-- The objective of the single-sample matrix `[[1, -1, -1, -1, -1]]` is
strictly negative at `x = -1/1`: one weak excitation against four
satisfied couplings puts the pseudo-likelihood root below `T = 1`. -/
theorem dmlpl_chain_sample_neg :
    d_mean_log_pseudo_likelihood [[1, -1, -1, -1, -1]] (-1 / 1) < 0 := by
  have h : ((-1 : ℝ) / 1) = -1 := by norm_num
  rw [h]
  unfold d_mean_log_pseudo_likelihood
  simp
  have e1 : Real.exp 1 < 2.7182818286 := Real.exp_one_lt_d9
  have p1 : (0 : ℝ) < 1 + Real.exp 1 := by positivity
  have hA : (1 + Real.exp (-1))⁻¹ < 1 := by
    apply inv_lt_one_of_one_lt₀
    have := Real.exp_pos (-1)
    linarith
  have hB : (1 : ℝ) / 4 < 1 / (1 + Real.exp 1) := by
    apply one_div_lt_one_div_of_lt p1
    linarith
  have hC : (-1 : ℝ) / (1 + Real.exp 1) = -(1 / (1 + Real.exp 1)) := by
    field_simp
  simp only [hC]
  linarith

/-- Concrete evaluation: on `[[-1], [1]]` with the default bracket the
point estimate clamps to the upper bracket end with a diagnostic. -/
theorem pe_pm_eval :
    mpl_point_estimate [[-1], [1]] none (some "bisect") defaultTBracket =
      .ok ⟨1000, [.aboveTBracket], false, none⟩ := by
  have h := mpl_point_estimate_clamp_hi [[-1], [1]] none 1e-3 1000
    (by norm_num) (by norm_num) (by decide)
    (not_lt.mpr (le_of_lt (dmlpl_pm_pos (-1 / 1e-3) (by norm_num))))
    (dmlpl_pm_pos (-1 / 1000) (by norm_num))
  simpa [defaultTBracket] using h

/-- Concrete evaluation: the all-nonpositive slice `[[-1]]` is degenerate
and yields estimate 0 whatever the guess. -/
theorem pe_neg_degenerate_eval :
    mpl_point_estimate [[-1]] (some 1000) (some "bisect") defaultTBracket =
      .ok ⟨0, [], false, none⟩ := by
  unfold mpl_point_estimate
  rw [if_pos (by decide : npMaxMatrix [[-1]] ≤ 0)]

/-- Concrete evaluation: on the slice `[[1]]` with propagated guess 1000
the point estimate clamps to the upper bracket end. -/
theorem pe_single_one_eval :
    mpl_point_estimate [[1]] (some 1000) (some "bisect") defaultTBracket =
      .ok ⟨1000, [.aboveTBracket], false, none⟩ := by
  have h := mpl_point_estimate_clamp_hi [[1]] (some 1000) 1e-3 1000
    (by norm_num) (by norm_num) (by decide)
    (not_lt.mpr (le_of_lt (dmlpl_single_one_pos (-1 / 1e-3))))
    (dmlpl_single_one_pos (-1 / 1000))
  simpa [defaultTBracket] using h

/-- First invocation on `[[-1], [1]]` with one bootstrap replicate and
seed 42, global generator at position 0: the replicate draws row 0 (the
frozen sample), so the bootstrap array is `[0]`; the generator advances
to position 1. -/
theorem mpl_invocation_one :
    maximum_pseudolikelihood_temperature [[-1], [1]] 1 (some 42) none
      (some "bisect") defaultTBracket rng0 =
      .ok ⟨1000, [0], [.aboveTBracket], false, ⟨idStream, 1⟩⟩ := by
  have h := mpl_boot_characterization [[-1], [1]] 1 (some 42) none
    (some "bisect") defaultTBracket idStream 0
    ⟨1000, [.aboveTBracket], false, none⟩ (by decide) pe_pm_eval (by norm_num)
  have hpe : peT [[-1]] 1000 = 0 := by
    unfold peT
    rw [pe_neg_degenerate_eval]
  rw [show rng0 = Rng.mk idStream 0 from rfl, h]
  norm_num [drawsList, sliceRows, idStream, hpe]
  have hr1 : List.range 1 = [0] := rfl
  simp [hr1, Function.comp, idStream]
  norm_num [hpe]

/-- Second invocation, identical arguments, global generator now at
position 1: the replicate draws row 1 (the excited sample), so the
bootstrap array is `[1000]`. -/
theorem mpl_invocation_two :
    maximum_pseudolikelihood_temperature [[-1], [1]] 1 (some 42) none
      (some "bisect") defaultTBracket ⟨idStream, 1⟩ =
      .ok ⟨1000, [1000], [.aboveTBracket], false, ⟨idStream, 2⟩⟩ := by
  have h := mpl_boot_characterization [[-1], [1]] 1 (some 42) none
    (some "bisect") defaultTBracket idStream 1
    ⟨1000, [.aboveTBracket], false, none⟩ (by decide) pe_pm_eval (by norm_num)
  have hpe : peT [[1]] 1000 = 1000 := by
    unfold peT
    rw [pe_single_one_eval]
  rw [h]
  norm_num [drawsList, sliceRows, idStream, hpe]
  have hr1 : List.range 1 = [0] := rfl
  simp [hr1, Function.comp, idStream]
  norm_num [hpe]

/-- Any non-degenerate call whose point estimate succeeds returns that
estimate together with its diagnostics, whatever the bootstrap count. -/
theorem mpl_nondegenerate_exists (F : List (List ℚ)) (N : Nat)
    (seed : Option Nat) (g : Option ℝ) (m : Option String) (br : ℝ × ℝ)
    (rng : Rng) (pt : PointOut)
    (hmax : ¬ npMaxMatrix F ≤ 0)
    (hpt : mpl_point_estimate F g m br = .ok pt) :
    ∃ boots rng', maximum_pseudolikelihood_temperature F N seed g m br rng =
      .ok ⟨pt.T_estimate, boots, pt.warnings, pt.searched, rng'⟩ := by
  obtain ⟨st, p⟩ := rng
  by_cases hN : 0 < N
  · exact ⟨_, _, mpl_boot_characterization F N seed g m br st p pt hmax hpt hN⟩
  · refine ⟨List.replicate N 0, ⟨st, p⟩, ?_⟩
    unfold maximum_pseudolikelihood_temperature
    rw [if_neg hmax, hpt]
    dsimp only
    rw [if_neg hN]

/-- C1: for every effective-field matrix in excitation form whose maximum
entry over all samples and variables is nonpositive,
`maximum_pseudolikelihood_temperature` returns `T_estimate = 0` without
raising any error, without emitting diagnostics and without invoking any
root search (and without touching the global generator). -/
theorem degenerate_frozen_returns_zero (F : List (List ℚ)) (N : Nat)
    (seed : Option Nat) (g : Option ℝ) (m : Option String) (br : ℝ × ℝ)
    (rng : Rng) (h : npMaxMatrix F ≤ 0) :
    maximum_pseudolikelihood_temperature F N seed g m br rng =
      .ok ⟨0, List.replicate N 0, [], false, rng⟩ :=
  mpl_degenerate F N seed g m br rng h

/-- Witness for C1 at the concrete frozen matrix `[[-1, -2], [0, -3]]`. -/
theorem degenerate_frozen_returns_zero_witness :
    npMaxMatrix [[-1, -2], [0, -3]] ≤ 0 ∧
    maximum_pseudolikelihood_temperature [[-1, -2], [0, -3]] 2 (some 7) none
      (some "bisect") defaultTBracket rng0 =
      .ok ⟨0, [0, 0], [], false, rng0⟩ :=
  ⟨by decide,
   by
     rw [degenerate_frozen_returns_zero [[-1, -2], [0, -3]] 2 (some 7) none
       (some "bisect") defaultTBracket rng0 (by decide)]
     rfl⟩

/-- C5 counterexample: with a frozen matrix (all excitations nonpositive)
the invalid bracket `(5, 1)` is never validated - the call returns the
degenerate estimate instead of raising an invalid-argument error, so the
claim as stated (an error for every bisect call with a bad bracket) is
false. -/
theorem invalid_bracket_frozen_cx :
    maximum_pseudolikelihood_temperature [[-1]] 0 none none (some "bisect")
      (5, 1) rng0 = .ok ⟨0, [], [], false, rng0⟩ ∧
    ∀ msg, maximum_pseudolikelihood_temperature [[-1]] 0 none none
      (some "bisect") (5, 1) rng0 ≠ .error (.valueError msg) := by
  have h := mpl_degenerate [[-1]] 0 none none (some "bisect") (5, 1) rng0 (by decide)
  refine ⟨h, fun msg hcontra => ?_⟩
  rw [h] at hcontra
  exact Except.noConfusion hcontra

/-- C5 (amended): in bisection mode with a positive maximum excitation
(and the default absent `T_guess`), a bracket violating `0 ≤ lo < hi`
raises the invalid-argument `ValueError` with no partial result. -/
theorem invalid_bracket_valueerror (F : List (List ℚ)) (N : Nat)
    (seed : Option Nat) (rng : Rng) (lo hi : ℝ)
    (hmax : 0 < npMaxMatrix F) (hbad : ¬ (0 ≤ lo ∧ lo < hi)) :
    maximum_pseudolikelihood_temperature F N seed none (some "bisect")
      (lo, hi) rng =
      .error (.valueError "Bad T_bracket, must be positive ordered scalars.") := by
  have hne : ((npMaxMatrix F : ℝ)) ≠ 0 := by
    exact_mod_cast hmax.ne'
  have hpt : mpl_point_estimate F none (some "bisect") (lo, hi) =
      .error (.valueError "Bad T_bracket, must be positive ordered scalars.") := by
    unfold mpl_point_estimate x0_selection
    rw [if_neg (not_le.mpr hmax)]
    dsimp only
    rw [pydivR_ok _ hne]
    dsimp only
    rw [if_pos rfl, if_pos hbad]
  unfold maximum_pseudolikelihood_temperature
  rw [if_neg (not_le.mpr hmax), hpt]

/-- Witness for the amended C5 at the bracket `(5, 1)` of the spec's test
property. -/
theorem invalid_bracket_valueerror_witness :
    0 < npMaxMatrix [[1]] ∧ ¬ ((0 : ℝ) ≤ 5 ∧ (5 : ℝ) < 1) ∧
    maximum_pseudolikelihood_temperature [[1]] 0 none none (some "bisect")
      (5, 1) rng0 =
      .error (.valueError "Bad T_bracket, must be positive ordered scalars.") :=
  ⟨by decide, by norm_num,
   invalid_bracket_valueerror [[1]] 0 none rng0 5 1 (by decide) (by norm_num)⟩

/-- C2 counterexample: the claim admits `lo = 0` ("a valid bracket
`0 <= lo < hi`"), but at `lo = 0` with a positive maximum excitation and
the objective positive at the `T=hi` transform point (the upper boundary
case, which per the claim should warn and return `hi`), the bracket
transform `-1/T_bracket[0]` raises ZeroDivisionError instead. -/
theorem bracket_clamp_lo_zero_cx :
    ((0 : ℝ) ≤ 0 ∧ (0 : ℝ) < 1000) ∧ 0 < npMaxMatrix [[1]] ∧
    0 < d_mean_log_pseudo_likelihood [[1]] (-1 / 1000) ∧
    maximum_pseudolikelihood_temperature [[1]] 0 none none (some "bisect")
      (0, 1000) rng0 = .error .zeroDivisionError := by
  refine ⟨⟨le_refl 0, by norm_num⟩, by decide, dmlpl_single_one_pos _, ?_⟩
  have hne : ((npMaxMatrix [[1]] : ℝ)) ≠ 0 := by
    rw [show npMaxMatrix [[1]] = 1 from rfl]
    norm_num
  have hpt : mpl_point_estimate [[1]] none (some "bisect") (0, 1000) =
      .error .zeroDivisionError := by
    unfold mpl_point_estimate x0_selection
    rw [if_neg (by decide : ¬ npMaxMatrix [[1]] ≤ 0)]
    dsimp only
    rw [pydivR_ok _ hne]
    dsimp only
    rw [if_pos rfl]
    rw [if_neg (not_not_intro ⟨le_refl (0 : ℝ), by norm_num⟩)]
    rw [show pydivR (-1) (0 : ℝ) = .error .zeroDivisionError from by
      unfold pydivR
      rw [if_pos rfl]]
  unfold maximum_pseudolikelihood_temperature
  rw [if_neg (by decide : ¬ npMaxMatrix [[1]] ≤ 0), hpt]

/-- C2 (amended to a strictly positive lower bracket end): in bisection
mode with `0 < lo < hi` and a positive maximum excitation, a negative
objective at the `T=lo` transform point makes the call warn and return
`T_estimate = lo` without searching; otherwise a positive objective at
the `T=hi` transform point makes it warn and return `T_estimate = hi`
without searching; neither boundary case raises. -/
theorem bracket_clamp_boundary_policy (F : List (List ℚ)) (N : Nat)
    (seed : Option Nat) (g : Option ℝ) (lo hi : ℝ) (rng : Rng)
    (hlo : 0 < lo) (hlohi : lo < hi) (hmax : 0 < npMaxMatrix F) :
    (d_mean_log_pseudo_likelihood F (-1 / lo) < 0 →
      ∃ boots rng', maximum_pseudolikelihood_temperature F N seed g
          (some "bisect") (lo, hi) rng =
        .ok ⟨lo, boots, [.belowTBracket], false, rng'⟩) ∧
    (¬ d_mean_log_pseudo_likelihood F (-1 / lo) < 0 →
      0 < d_mean_log_pseudo_likelihood F (-1 / hi) →
      ∃ boots rng', maximum_pseudolikelihood_temperature F N seed g
          (some "bisect") (lo, hi) rng =
        .ok ⟨hi, boots, [.aboveTBracket], false, rng'⟩) := by
  constructor
  · intro hd
    exact mpl_nondegenerate_exists F N seed g (some "bisect") (lo, hi) rng _
      (not_le.mpr hmax)
      (mpl_point_estimate_clamp_lo F g lo hi hlo hlohi hmax hd)
  · intro hd1 hd2
    exact mpl_nondegenerate_exists F N seed g (some "bisect") (lo, hi) rng _
      (not_le.mpr hmax)
      (mpl_point_estimate_clamp_hi F g lo hi hlo hlohi hmax hd1 hd2)

/-- Witness for the amended C2: the single-sample matrix
`[[1, -1, -1, -1, -1]]` with bracket `(1, 2)` falls in the lower boundary
case and clamps to `T = 1`; the matrix `[[1]]` with the same bracket
falls in the upper boundary case and clamps to `T = 2`. -/
theorem bracket_clamp_boundary_policy_witness :
    (0 : ℝ) < 1 ∧ (1 : ℝ) < 2 ∧ 0 < npMaxMatrix [[1, -1, -1, -1, -1]] ∧
    d_mean_log_pseudo_likelihood [[1, -1, -1, -1, -1]] (-1 / 1) < 0 ∧
    (∃ boots rng', maximum_pseudolikelihood_temperature [[1, -1, -1, -1, -1]]
        0 none none (some "bisect") (1, 2) rng0 =
      .ok ⟨1, boots, [.belowTBracket], false, rng'⟩) ∧
    0 < npMaxMatrix [[1]] ∧
    ¬ d_mean_log_pseudo_likelihood [[1]] (-1 / 1) < 0 ∧
    0 < d_mean_log_pseudo_likelihood [[1]] (-1 / 2) ∧
    (∃ boots rng', maximum_pseudolikelihood_temperature [[1]]
        0 none none (some "bisect") (1, 2) rng0 =
      .ok ⟨2, boots, [.aboveTBracket], false, rng'⟩) :=
  ⟨by norm_num, by norm_num, by decide, dmlpl_chain_sample_neg,
   (bracket_clamp_boundary_policy [[1, -1, -1, -1, -1]] 0 none none 1 2 rng0
     (by norm_num) (by norm_num) (by decide)).1 dmlpl_chain_sample_neg,
   by decide,
   not_lt.mpr (le_of_lt (dmlpl_single_one_pos (-1 / 1))),
   dmlpl_single_one_pos (-1 / 2),
   (bracket_clamp_boundary_policy [[1]] 0 none none 1 2 rng0
     (by norm_num) (by norm_num) (by decide)).2
     (not_lt.mpr (le_of_lt (dmlpl_single_one_pos (-1 / 1))))
     (dmlpl_single_one_pos (-1 / 2))⟩

/-- C8: with `lo = 0` (admitted by the validation `0 <= lo < hi`) and a
positive maximum excitation, the bracket transform
`[-1/T_bracket[0], -1/T_bracket[1]]` divides by zero: for Python scalar
brackets the call raises ZeroDivisionError rather than producing the
`-infinity` boundary the spec describes. -/
theorem bracket_lo_zero_zerodivision :
    0 < npMaxMatrix [[1]] ∧ ((0 : ℝ) ≤ 0 ∧ (0 : ℝ) < 10) ∧
    maximum_pseudolikelihood_temperature [[1]] 0 none none (some "bisect")
      (0, 10) rng0 = .error .zeroDivisionError := by
  refine ⟨by decide, ⟨le_refl 0, by norm_num⟩, ?_⟩
  have hne : ((npMaxMatrix [[1]] : ℝ)) ≠ 0 := by
    rw [show npMaxMatrix [[1]] = 1 from rfl]
    norm_num
  have hpt : mpl_point_estimate [[1]] none (some "bisect") (0, 10) =
      .error .zeroDivisionError := by
    unfold mpl_point_estimate x0_selection
    rw [if_neg (by decide : ¬ npMaxMatrix [[1]] ≤ 0)]
    dsimp only
    rw [pydivR_ok _ hne]
    dsimp only
    rw [if_pos rfl]
    rw [if_neg (not_not_intro ⟨le_refl (0 : ℝ), by norm_num⟩)]
    rw [show pydivR (-1) (0 : ℝ) = .error .zeroDivisionError from by
      unfold pydivR
      rw [if_pos rfl]]
  unfold maximum_pseudolikelihood_temperature
  rw [if_neg (by decide : ¬ npMaxMatrix [[1]] ≤ 0), hpt]

/-- C3: the bootstrap draws come from the NumPy global generator
(`np.random.choice`), not from the seeded `RandomState` the routine
constructs, so the output is independent of the seed argument (first
conjunct, definitional) and two invocations with identical arguments -
the second starting from the global state the first left behind - return
different bootstrap arrays (`[0]` versus `[1000]`). -/
theorem bootstrap_not_seed_reproducible :
    (∀ s1 s2 : Option Nat,
      maximum_pseudolikelihood_temperature [[-1], [1]] 1 s1 none
        (some "bisect") defaultTBracket rng0 =
      maximum_pseudolikelihood_temperature [[-1], [1]] 1 s2 none
        (some "bisect") defaultTBracket rng0) ∧
    maximum_pseudolikelihood_temperature [[-1], [1]] 1 (some 42) none
      (some "bisect") defaultTBracket rng0 =
      .ok ⟨1000, [0], [.aboveTBracket], false, ⟨idStream, 1⟩⟩ ∧
    maximum_pseudolikelihood_temperature [[-1], [1]] 1 (some 42) none
      (some "bisect") defaultTBracket ⟨idStream, 1⟩ =
      .ok ⟨1000, [1000], [.aboveTBracket], false, ⟨idStream, 2⟩⟩ ∧
    ([0] : List ℝ) ≠ [1000] := by
  refine ⟨fun s1 s2 => rfl, mpl_invocation_one, mpl_invocation_two, ?_⟩
  simp

/-- C10: every call that returns yields a bootstrap array of length
exactly `num_bootstrap_samples`; in the degenerate case the array is all
zeros and no resampling (generator untouched) and no root search happens
for any replicate. -/
theorem bootstrap_array_length_invariant (F : List (List ℚ)) (N : Nat)
    (seed : Option Nat) (g : Option ℝ) (m : Option String) (br : ℝ × ℝ)
    (rng : Rng) (out : MPLReturn)
    (hok : maximum_pseudolikelihood_temperature F N seed g m br rng = .ok out) :
    out.T_bootstrap_estimates.length = N ∧
    (npMaxMatrix F ≤ 0 →
      out.T_bootstrap_estimates = List.replicate N 0 ∧ out.rng = rng ∧
      out.searched = false ∧ out.warnings = []) := by
  by_cases h : npMaxMatrix F ≤ 0
  · rw [mpl_degenerate F N seed g m br rng h] at hok
    have hout : out = ⟨0, List.replicate N 0, [], false, rng⟩ := by
      cases hok
      rfl
    subst hout
    simp
  · refine ⟨?_, fun hcontr => absurd hcontr h⟩
    obtain ⟨st, p⟩ := rng
    unfold maximum_pseudolikelihood_temperature at hok
    rw [if_neg h] at hok
    cases hpt : mpl_point_estimate F g m br with
    | error e =>
      rw [hpt] at hok
      exact absurd hok (by simp)
    | ok pt =>
      rw [hpt] at hok
      dsimp only at hok
      by_cases hN : 0 < N
      · rw [if_pos hN, bootLoop_eq] at hok
        have hout : out = ⟨pt.T_estimate,
            [] ++ (List.range N).map
              (fun i => peT (sliceRows F (drawsList st (p + i * N) F.length N))
                pt.T_estimate),
            pt.warnings, pt.searched, ⟨st, p + N * N⟩⟩ := by
          cases hok
          rfl
        subst hout
        simp
      · rw [if_neg hN] at hok
        have hout : out = ⟨pt.T_estimate, List.replicate N 0, pt.warnings,
            pt.searched, ⟨st, p⟩⟩ := by
          cases hok
          rfl
        subst hout
        simp

/-- Witness for C10 at a degenerate call with three requested bootstrap
replicates. -/
theorem bootstrap_array_length_invariant_witness :
    maximum_pseudolikelihood_temperature [[-1]] 3 (some 5) none
      (some "bisect") defaultTBracket rng0 =
      .ok ⟨0, [0, 0, 0], [], false, rng0⟩ ∧
    ([0, 0, 0] : List ℝ).length = 3 ∧
    ((0 : ℚ) ≤ 0 → ([0, 0, 0] : List ℝ) = List.replicate 3 0) := by
  have hcall : maximum_pseudolikelihood_temperature [[-1]] 3 (some 5) none
      (some "bisect") defaultTBracket rng0 =
      .ok ⟨0, [0, 0, 0], [], false, rng0⟩ := by
    rw [mpl_degenerate [[-1]] 3 (some 5) none (some "bisect") defaultTBracket
      rng0 (by decide)]
    rfl
  have h := bootstrap_array_length_invariant [[-1]] 3 (some 5) none
    (some "bisect") defaultTBracket rng0 ⟨0, [0, 0, 0], [], false, rng0⟩ hcall
  exact ⟨hcall, h.1, fun hfroz => (h.2 (by decide)).1⟩

/-- C4: in a non-degenerate bootstrapped call, replicate `i` draws exactly
`N` row indices (`N` the requested replicate count, not the sample count)
from the sample axis, every drawn index addresses a sample row, the
slice keeps all variables of the drawn rows, and the bootstrap array is
exactly the sequence of recursive point estimates on those slices with
bootstrap count 0 and initial guess equal to the outer estimate (third
conjunct: such a bootstrap-count-0 call is the point estimate `peT`). -/
theorem bootstrap_replicate_structure (F : List (List ℚ)) (N : Nat)
    (seed : Option Nat) (g : Option ℝ) (m : Option String) (br : ℝ × ℝ)
    (st : Nat → Nat) (p : Nat) (out : MPLReturn)
    (hok : maximum_pseudolikelihood_temperature F N seed g m br ⟨st, p⟩ = .ok out)
    (hmax : 0 < npMaxMatrix F) (hN : 0 < N) (hF : 0 < F.length) :
    out.T_bootstrap_estimates =
      (List.range N).map (fun i =>
        peT (sliceRows F (drawsList st (p + i * N) F.length N)) out.T_estimate) ∧
    (∀ i, (drawsList st (p + i * N) F.length N).length = N ∧
      ∀ j ∈ drawsList st (p + i * N) F.length N, j < F.length) ∧
    ∀ (G : List (List ℚ)) (g' : ℝ) (r : Rng), ∃ w s,
      maximum_pseudolikelihood_temperature G 0 none (some g') (some "bisect")
        defaultTBracket r = .ok ⟨peT G g', [], w, s, r⟩ := by
  cases hpt : mpl_point_estimate F g m br with
  | error e =>
    exfalso
    unfold maximum_pseudolikelihood_temperature at hok
    rw [if_neg (not_le.mpr hmax), hpt] at hok
    exact absurd hok (by simp)
  | ok pt =>
    rw [mpl_boot_characterization F N seed g m br st p pt
      (not_le.mpr hmax) hpt hN] at hok
    have hout : out = ⟨pt.T_estimate,
        (List.range N).map (fun i =>
          peT (sliceRows F (drawsList st (p + i * N) F.length N)) pt.T_estimate),
        pt.warnings, pt.searched, ⟨st, p + N * N⟩⟩ := by
      cases hok
      rfl
    subst hout
    refine ⟨rfl, fun i => ⟨?_, fun j hj => ?_⟩, fun G g' r => ?_⟩
    · simp [drawsList]
    · simp only [drawsList, List.mem_map] at hj
      obtain ⟨k, _, hk⟩ := hj
      rw [← hk]
      exact Nat.mod_lt _ hF
    · obtain ⟨pt', hpt'⟩ := mpl_point_estimate_default_ok G (some g')
      refine ⟨pt'.warnings, pt'.searched, ?_⟩
      rw [maximum_pseudolikelihood_temperature_zero_eq_point G none (some g')
        (some "bisect") defaultTBracket r, hpt']
      dsimp only
      rw [show peT G g' = pt'.T_estimate from by unfold peT; rw [hpt']]

/-- Witness for C4 at the two-sample matrix `[[-1], [1]]` with one
replicate and the identity global stream. -/
theorem bootstrap_replicate_structure_witness :
    0 < npMaxMatrix [[-1], [1]] ∧ 0 < 1 ∧
    0 < ([[-1], [1]] : List (List ℚ)).length ∧
    ([0] : List ℝ) =
      (List.range 1).map (fun i =>
        peT (sliceRows [[-1], [1]]
          (drawsList idStream (0 + i * 1) ([[-1], [1]] : List (List ℚ)).length 1))
          1000) :=
  ⟨by decide, by norm_num, by decide,
   (bootstrap_replicate_structure [[-1], [1]] 1 (some 42) none (some "bisect")
     defaultTBracket idStream 0 ⟨1000, [0], [.aboveTBracket], false, ⟨idStream, 1⟩⟩
     mpl_invocation_one (by decide) (by norm_num) (by decide)).1⟩

/-- `addAt` preserves the length of the vector. -/
theorem addAt_length (v : List ℚ) (n : Nat) (q : ℚ) :
    (addAt v n q).length = v.length := by
  induction v generalizing n with
  | nil => rfl
  | cons x xs ih =>
    cases n with
    | zero => rfl
    | succ n => simp [addAt, ih]

/-- `addAt` adds its amount at the addressed (in-range) position. -/
theorem addAt_getD_self (v : List ℚ) (n : Nat) (q : ℚ) (hn : n < v.length) :
    (addAt v n q).getD n 0 = v.getD n 0 + q := by
  induction v generalizing n with
  | nil => simp at hn
  | cons x xs ih =>
    cases n with
    | zero => rfl
    | succ n =>
      simp only [addAt, List.getD_cons_succ]
      exact ih n (by simpa using hn)

/-- `addAt` leaves every other position unchanged. -/
theorem addAt_getD_ne (v : List ℚ) (n m : Nat) (q : ℚ) (hm : m ≠ n) :
    (addAt v n q).getD m 0 = v.getD m 0 := by
  induction v generalizing n m with
  | nil => rfl
  | cons x xs ih =>
    cases n with
    | zero =>
      cases m with
      | zero => exact absurd rfl hm
      | succ m => rfl
    | succ n =>
      cases m with
      | zero => rfl
      | succ m =>
        simp only [addAt, List.getD_cons_succ]
        exact ih n m (fun hc => hm (by rw [hc]))

/-- `getD` through `map` at an in-range index. -/
theorem list_getD_map {α β : Type} (f : α → β) (l : List α) (k : Nat)
    (d : β) (d' : α) (hk : k < l.length) :
    (l.map f).getD k d = f (l.getD k d') := by
  induction l generalizing k with
  | nil => simp at hk
  | cons x xs ih =>
    cases k with
    | zero => rfl
    | succ k =>
      simp only [List.map_cons, List.getD_cons_succ]
      exact ih k (by simpa using hk)

/-- `getD` through `zipWith` at an index inside both lists. -/
theorem list_getD_zipWith (f : ℚ → ℚ → ℚ) :
    ∀ (xs ys : List ℚ) (i : Nat), i < xs.length → i < ys.length →
      (List.zipWith f xs ys).getD i 0 = f (xs.getD i 0) (ys.getD i 0) := by
  intro xs
  induction xs with
  | nil => intro ys i hi; simp at hi
  | cons x xs ih =>
    intro ys i hx hy
    cases ys with
    | nil => simp at hy
    | cons y ys =>
      cases i with
      | zero => rfl
      | succ i =>
        simp only [List.zipWith_cons_cons, List.getD_cons_succ]
        exact ih ys i (by simpa using hx) (by simpa using hy)

/-- Pointwise sums of mapped lists split. -/
theorem list_sum_map_add {α : Type} (l : List α) (f g : α → ℚ) :
    (l.map (fun a => f a + g a)).sum = (l.map f).sum + (l.map g).sum := by
  induction l with
  | nil => simp
  | cons x xs ih =>
    simp [ih]
    ring

/-- A constant right factor distributes into a mapped list sum. -/
theorem list_sum_map_mul_right {α : Type} (l : List α) (f : α → ℚ) (c : ℚ) :
    (l.map f).sum * c = (l.map (fun a => f a * c)).sum := by
  induction l with
  | nil => simp
  | cons x xs ih =>
    simp [← ih]
    ring

/-- Exchange of a `Finset.range` sum with a mapped list sum. -/
theorem listsum_finset_swap {α : Type} (es : List α) (n : Nat) (g : α → Nat → ℚ) :
    ∑ j in Finset.range n, (es.map (fun e => g e j)).sum =
      (es.map (fun e => ∑ j in Finset.range n, g e j)).sum := by
  induction es with
  | nil => simp
  | cons e es ih =>
    simp only [List.map_cons, List.sum_cons]
    rw [Finset.sum_add_distrib, ih]

/-- A fold of `addAt` updates preserves the vector length. -/
theorem foldl_addAt_length {α : Type} (idx : α → Nat) (amt : α → ℚ) :
    ∀ (es : List α) (v : List ℚ),
      (es.foldl (fun w e => addAt w (idx e) (amt e)) v).length = v.length := by
  intro es
  induction es with
  | nil => intro v; rfl
  | cons e es ih =>
    intro v
    simp only [List.foldl_cons]
    rw [ih, addAt_length]

/-- One `np.add.at` pass (a fold of `addAt` updates with in-range indices) adds, at each position, the sum of the amounts addressed to it. -/
theorem foldl_addAt_getD {α : Type} (idx : α → Nat) (amt : α → ℚ) :
    ∀ (es : List α) (v : List ℚ), (∀ e ∈ es, idx e < v.length) → ∀ i,
      (es.foldl (fun w e => addAt w (idx e) (amt e)) v).getD i 0 =
        v.getD i 0 + (es.map (fun e => if idx e = i then amt e else 0)).sum := by
  intro es
  induction es with
  | nil =>
    intro v _ i
    simp
  | cons e es ih =>
    intro v hb i
    simp only [List.foldl_cons, List.map_cons, List.sum_cons]
    rw [ih (addAt v (idx e) (amt e))
      (fun e' he' => by rw [addAt_length]; exact hb e' (List.mem_cons_of_mem _ he')) i]
    by_cases hc : idx e = i
    · rw [if_pos hc]
      rw [show addAt v (idx e) (amt e) = addAt v i (amt e) from by rw [hc]]
      rw [addAt_getD_self v i (amt e) (hc ▸ hb e (List.mem_cons_self e es))]
      ring
    · rw [if_neg hc]
      rw [addAt_getD_ne v (idx e) i (amt e) (fun hc' => hc hc'.symm)]
      ring

/-- Inner sum of one stored edge against the symmetric-coupling expansion: summing its two orientation indicators times the sample over all columns yields exactly its two `np.add.at` contributions. -/
theorem edge_inner_sum (n i a b : Nat) (q : ℚ) (s : List ℚ)
    (ha : a < n) (hb : b < n) :
    (∑ j in Finset.range n,
      ((if a = i ∧ b = j then q else 0) + (if a = j ∧ b = i then q else 0)) * s.getD j 0) =
      (if a = i then q * s.getD b 0 else 0) + (if b = i then q * s.getD a 0 else 0) := by
  have hsplit : ∀ j : Nat,
      ((if a = i ∧ b = j then q else 0) + (if a = j ∧ b = i then q else 0)) * s.getD j 0 =
        (if a = i ∧ b = j then q * s.getD j 0 else 0) +
        (if a = j ∧ b = i then q * s.getD j 0 else 0) := by
    intro j
    simp only [add_mul, ite_mul, zero_mul]
  simp only [hsplit]
  rw [Finset.sum_add_distrib]
  congr 1
  · by_cases h1 : a = i
    · simp only [h1, true_and, if_true]
      rw [Finset.sum_ite_eq (Finset.range n) b (fun j => q * s.getD j 0)]
      simp [Finset.mem_range.mpr hb]
    · simp [h1]
  · by_cases h2 : b = i
    · simp only [h2, and_true, if_true]
      rw [Finset.sum_ite_eq (Finset.range n) a (fun j => q * s.getD j 0)]
      simp [Finset.mem_range.mpr ha]
    · simp [h2]

/-- Per-sample closed form of the excitation-form effective field: entry `i` equals `2 * s_i * (h_i + sum_j Jsym_ij * s_j)`. -/
theorem effective_field_row_formula (h : List ℚ) (edges : List (Nat × Nat × ℚ))
    (s : List ℚ) (i : Nat)
    (hbound : ∀ e ∈ edges, e.1 < h.length ∧ e.2.1 < h.length)
    (hs : s.length = h.length) (hi : i < h.length) :
    (effective_field_row h edges s true).getD i 0 =
      2 * s.getD i 0 * (h.getD i 0 +
        ∑ j in Finset.range h.length, Jsym edges i j * s.getD j 0) := by
  unfold effective_field_row
  dsimp only
  rw [if_pos rfl]
  have hlen1 : (edges.foldl (fun v e => addAt v e.1 (e.2.2 * s.getD e.2.1 0)) h).length
      = h.length := foldl_addAt_length (fun e => e.1) (fun e => e.2.2 * s.getD e.2.1 0) edges h
  have hlen2 : (edges.foldl (fun v e => addAt v e.2.1 (e.2.2 * s.getD e.1 0))
      (edges.foldl (fun v e => addAt v e.1 (e.2.2 * s.getD e.2.1 0)) h)).length
      = h.length :=
    (foldl_addAt_length (fun e => e.2.1) (fun e => e.2.2 * s.getD e.1 0) edges
      (edges.foldl (fun v e => addAt v e.1 (e.2.2 * s.getD e.2.1 0)) h)).trans hlen1
  rw [list_getD_zipWith _ s _ i (by rw [hs]; exact hi) (by rw [hlen2]; exact hi)]
  have h1 : (edges.foldl (fun v e => addAt v e.1 (e.2.2 * s.getD e.2.1 0)) h).getD i 0 =
      h.getD i 0 + (edges.map (fun e => if e.1 = i then e.2.2 * s.getD e.2.1 0 else 0)).sum :=
    foldl_addAt_getD (fun e => e.1) (fun e => e.2.2 * s.getD e.2.1 0) edges h
      (fun e he => (hbound e he).1) i
  have h2 : (edges.foldl (fun v e => addAt v e.2.1 (e.2.2 * s.getD e.1 0))
        (edges.foldl (fun v e => addAt v e.1 (e.2.2 * s.getD e.2.1 0)) h)).getD i 0 =
      (edges.foldl (fun v e => addAt v e.1 (e.2.2 * s.getD e.2.1 0)) h).getD i 0 +
        (edges.map (fun e => if e.2.1 = i then e.2.2 * s.getD e.1 0 else 0)).sum :=
    foldl_addAt_getD (fun e => e.2.1) (fun e => e.2.2 * s.getD e.1 0) edges
      (edges.foldl (fun v e => addAt v e.1 (e.2.2 * s.getD e.2.1 0)) h)
      (fun e he => by rw [hlen1]; exact (hbound e he).2) i
  rw [h2, h1]
  have key : (edges.map (fun e => if e.1 = i then e.2.2 * s.getD e.2.1 0 else 0)).sum +
      (edges.map (fun e => if e.2.1 = i then e.2.2 * s.getD e.1 0 else 0)).sum =
      ∑ j in Finset.range h.length, Jsym edges i j * s.getD j 0 := by
    rw [← list_sum_map_add edges
      (fun e => if e.1 = i then e.2.2 * s.getD e.2.1 0 else 0)
      (fun e => if e.2.1 = i then e.2.2 * s.getD e.1 0 else 0)]
    unfold Jsym
    have hdist : ∀ j ∈ Finset.range h.length,
        (edges.map (fun e =>
          (if e.1 = i ∧ e.2.1 = j then e.2.2 else 0) +
          (if e.1 = j ∧ e.2.1 = i then e.2.2 else 0))).sum * s.getD j 0 =
        (edges.map (fun e =>
          ((if e.1 = i ∧ e.2.1 = j then e.2.2 else 0) +
           (if e.1 = j ∧ e.2.1 = i then e.2.2 else 0)) * s.getD j 0)).sum := by
      intro j _
      exact list_sum_map_mul_right edges _ (s.getD j 0)
    rw [Finset.sum_congr rfl hdist]
    rw [listsum_finset_swap]
    apply congrArg List.sum
    apply List.map_congr_left
    intro e he
    rw [edge_inner_sum h.length i e.1 e.2.1 e.2.2 s (hbound e he).1 (hbound e he).2]
  rw [add_assoc, key]

/-- C6: with `current_state_energy = True`, `effective_field` computes
`f_i(s) = 2 * s_i * (h_i + sum_j J_ij * s_j)` where `J` is the symmetric
coupling matrix accumulating each stored edge into both endpoints exactly
once (first conjunct); in particular the 5-variable ferromagnetic chain
with couplings -0.5 and the all-ones sample evaluates to exactly
`[[-1, -2, -2, -2, -1]]` (second conjunct). -/
theorem effective_field_excitation_formula :
    (∀ (h : List ℚ) (edges : List (Nat × Nat × ℚ)) (samples : List (List ℚ))
      (k i : Nat),
      (∀ e ∈ edges, e.1 < h.length ∧ e.2.1 < h.length) →
      k < samples.length →
      (samples.getD k []).length = h.length →
      i < h.length →
      ((effective_field h edges samples true).getD k []).getD i 0 =
        2 * (samples.getD k []).getD i 0 *
          (h.getD i 0 + ∑ j in Finset.range h.length,
            Jsym edges i j * (samples.getD k []).getD j 0)) ∧
    effective_field chain_h chain_edges [[1, 1, 1, 1, 1]] true =
      [[-1, -2, -2, -2, -1]] := by
  constructor
  · intro h edges samples k i hb hk hs hi
    unfold effective_field
    rw [list_getD_map (fun s => effective_field_row h edges s true) samples k [] [] hk]
    exact effective_field_row_formula h edges (samples.getD k []) i hb hs hi
  · simp [effective_field, effective_field_row, chain_h, chain_edges, addAt]
    norm_num

/-- Witness for C6: the formula instance at the chain model, sample 0,
variable 2. -/
theorem effective_field_excitation_formula_witness :
    (∀ e ∈ chain_edges, e.1 < chain_h.length ∧ e.2.1 < chain_h.length) ∧
    0 < ([[1, 1, 1, 1, 1]] : List (List ℚ)).length ∧
    (([[1, 1, 1, 1, 1]] : List (List ℚ)).getD 0 []).length = chain_h.length ∧
    2 < chain_h.length ∧
    ((effective_field chain_h chain_edges [[1, 1, 1, 1, 1]] true).getD 0 []).getD 2 0 =
      2 * (([[1, 1, 1, 1, 1]] : List (List ℚ)).getD 0 []).getD 2 0 *
        (chain_h.getD 2 0 + ∑ j in Finset.range chain_h.length,
          Jsym chain_edges 2 j * (([[1, 1, 1, 1, 1]] : List (List ℚ)).getD 0 []).getD j 0) :=
  ⟨by decide, by decide, by decide, by decide,
   effective_field_excitation_formula.1 chain_h chain_edges [[1, 1, 1, 1, 1]] 0 2
     (by decide) (by decide) (by decide) (by decide)⟩

/-- C7: on an unrecognized unit tag `freezeout_effective_temperature`
does not raise the invalid-argument `ValueError` the spec requires: the
source line `raise ValueException(...)` evaluates the undefined name
`ValueException`, so a `NameError` escapes instead, for the `units_B`
validation and for the `units_T` validation alike.  The neighbouring
unit converter `Ip_in_units_of_B` does raise `ValueError` (last
conjunct), so `freezeout_effective_temperature` is the deviating one. -/
theorem freezeout_bad_units_nameerror :
    freezeout_effective_temperature 3.91 15.4 "THz" "mK" =
      .error (.nameError "name ValueException is not defined") ∧
    freezeout_effective_temperature 3.91 15.4 "GHz" "kelvin" =
      .error (.nameError "name ValueException is not defined") ∧
    (∀ msg, freezeout_effective_temperature 3.91 15.4 "THz" "mK" ≠
      .error (.valueError msg)) ∧
    Ip_in_units_of_B (some 1) 1.391 1.647 "uA" "THz" "pH" =
      .error (.valueError "Schedule B must be in units GHz or J") := by
  refine ⟨rfl, rfl, ?_, rfl⟩
  intro msg hcontra
  rw [show freezeout_effective_temperature 3.91 15.4 "THz" "mK" =
    .error (.nameError "name ValueException is not defined") from rfl] at hcontra
  simp at hcontra

/-- C9: converting a bias to a flux bias and back is the identity, for
any argument combination on which the persistent-current conversion
succeeds with a nonzero value and a nonzero schedule energy `B`
(exact real arithmetic: `(-2*Ip/B) * (-B/2/Ip) = 1`). -/
theorem fluxbias_roundtrip (h : ℝ) (Ip : Option ℝ) (B MAFM : ℝ)
    (units_Ip units_B units_MAFM : String) (ipB : ℝ)
    (hip : Ip_in_units_of_B Ip B MAFM units_Ip units_B units_MAFM = .ok ipB)
    (hipne : ipB ≠ 0) (hB : B ≠ 0) :
    ∃ phi, h_to_fluxbias h Ip B MAFM units_Ip units_B units_MAFM = .ok phi ∧
      fluxbias_to_h phi Ip B MAFM units_Ip units_B units_MAFM = .ok h := by
  refine ⟨-B / 2 / ipB * h, ?_, ?_⟩
  · unfold h_to_fluxbias
    rw [hip]
    dsimp only
    rw [pydivR_ok _ hipne]
  · unfold fluxbias_to_h
    rw [hip]
    dsimp only
    rw [pydivR_ok _ hB]
    dsimp only
    have hval : -2 * ipB / B * (-B / 2 / ipB * h) = h := by
      field_simp
      ring
    rw [hval]

/-- Witness for C9 with the solver default parameters `B = 1.391`,
`MAFM = 1.647`, a provided persistent current of one microamp and
`h = 0.25`. -/
theorem fluxbias_roundtrip_witness :
    Ip_in_units_of_B (some 1) 1.391 1.647 "uA" "GHz" "pH" =
      .ok (1 * 1e-6 * (Phi0 : ℝ) / (1e9 * (planck_h : ℝ))) ∧
    (1 * 1e-6 * (Phi0 : ℝ) / (1e9 * (planck_h : ℝ))) ≠ 0 ∧
    (1.391 : ℝ) ≠ 0 ∧
    ∃ phi, h_to_fluxbias 0.25 (some 1) 1.391 1.647 "uA" "GHz" "pH" = .ok phi ∧
      fluxbias_to_h phi (some 1) 1.391 1.647 "uA" "GHz" "pH" = .ok 0.25 :=
  ⟨rfl, by norm_num [Phi0, planck_h], by norm_num,
   fluxbias_roundtrip 0.25 (some 1) 1.391 1.647 "uA" "GHz" "pH" _ rfl
     (by norm_num [Phi0, planck_h]) (by norm_num)⟩
